import Mathlib

set_option linter.unusedSectionVars false
set_option linter.unusedVariables false

/-!
Shallow embedding of `useDebouncedMemo` (src/index.ts) as an executable
transition system.

The hook's state (React hook slots and refs) becomes an explicit record.
One call of the hook body is one `render` step; the host's `setTimeout`
primitive becomes a pool of armed timers with integer fire times; a timer
callback invocation is a `fire` step.  Factories are identified by natural
numbers, interpreted by a semantics function `evalF : Nat → Except Nat T`
(`.error e` models the factory throwing).  Values held in state are tagged:
`MVal.fromFactory t` is an output of a caller factory, `MVal.placeholder n`
is the fresh `{}` object the lazy branch of `useMemo` returns (a fresh
`Nat` id per creation models fresh object identity under `Object.is`).
-/

namespace DebouncedMemo

/-- A slot value: a factory output, or the fresh empty-object sentinel the
lazy `useMemo` branch returns (`id` models object identity). -/
inductive MVal (T : Type) where
  | fromFactory (t : T)
  | placeholder (id : Nat)
deriving DecidableEq, Repr

/-- An armed, not yet fired, not yet cancelled `setTimeout` timer.
`capturedLazy` and `capturedMemo` are the values of `lazy` and
`memoizedValue` closed over by the callback when the effect armed it. -/
structure PTimer (T : Type) where
  handle : Nat
  fireAt : Int
  capturedLazy : Bool
  capturedMemo : MVal T
deriving DecidableEq, Repr

/-- The hook's per-instance state.

* `committed` — the `debouncedValue` `useState` slot (the hook's return value);
* `prevDeps` — the dependency list `useMemo` last computed with;
* `memoVal` — the cached `memoizedValue`;
* `phCtr` — counter supplying fresh placeholder identities;
* `factoryRef` — `factoryRef.current`;
* `timeoutRef` — `timeoutRef.current` (may be stale after a fire);
* `timers` — pool of live timers owned by the host scheduler;
* `nextHandle` — next `setTimeout` handle the host will hand out
  (handles start at 1, so a stored handle is always truthy in JS);
* `effectDeps` — the `[memoizedValue, delay, lazy]` array the effect last
  ran with (`none` before the first effect run). -/
structure Hook (T : Type) where
  committed : MVal T
  prevDeps : List Nat
  memoVal : MVal T
  phCtr : Nat
  factoryRef : Nat
  timeoutRef : Option Nat
  timers : List (PTimer T)
  nextHandle : Nat
  effectDeps : Option (MVal T × Int × Bool)
deriving DecidableEq, Repr

/-- The `options` argument: a bare number or `{ delay, lazy? }`. -/
inductive DebouncedMemoOptions where
  | num (n : Int)
  | obj (delay : Int) (lazy : Option Bool)
deriving DecidableEq, Repr

/-- `const delay = typeof options === 'number' ? options : options.delay` -/
def parseDelay : DebouncedMemoOptions → Int
  | .num n => n
  | .obj d _ => d

/-- `const lazy = typeof options === 'object' && options.lazy === true` -/
def parseLazy : DebouncedMemoOptions → Bool
  | .num _ => false
  | .obj _ l => l = some true

/-- `clearTimeout h` on the host's pool: removes the timer with that
handle if it is still live, otherwise a no-op. -/
def clearTimeout {T : Type} (timers : List (PTimer T)) (h : Nat) :
    List (PTimer T) :=
  timers.filter (fun tm => tm.handle ≠ h)

/-- `if (timeoutRef.current) clearTimeout(timeoutRef.current)`. -/
def clearStored {T : Type} (timers : List (PTimer T)) :
    Option Nat → List (PTimer T)
  | none => timers
  | some h => clearTimeout timers h

/-- The body of the `useEffect`: clear the stored timer, arm a new one
for `delay` ms whose callback closes over the current `lazy` and
`memoizedValue`, and record the effect's dependency array. -/
def runEffect {T : Type} (s : Hook T) (now delay : Int) (lazy : Bool) :
    Hook T :=
  { s with
    timers := clearStored s.timers s.timeoutRef ++
      [⟨s.nextHandle, now + delay, lazy, s.memoVal⟩],
    timeoutRef := some s.nextHandle,
    nextHandle := s.nextHandle + 1,
    effectDeps := some (s.memoVal, delay, lazy) }

/-- Result of one step: the post state, the exception that escaped (if
any), and how many times a caller factory was invoked during the step. -/
structure StepOut (T : Type) where
  state : Hook T
  thrown : Option Nat
  calls : Nat
deriving DecidableEq, Repr

variable {T : Type} [DecidableEq T]

variable (evalF : Nat → Except Nat T)

/-- First execution of the hook body (mount): the `useState` lazy
initializer calls `factory()` once; `useMemo` computes on first render
(a second factory call when not lazy, a fresh placeholder when lazy);
the effect always runs after the first render, arming the first timer.
Returns the mounted state and the number of factory invocations, or the
exception when the factory throws (construction fails, no state is
retained). -/
def mount (now : Int) (f : Nat) (deps : List Nat) (delay : Int)
    (lazy : Bool) : Except Nat (Hook T × Nat) :=
  match evalF f with
  | .error e => .error e
  | .ok v0 =>
    if lazy then
      let s : Hook T :=
        { committed := .fromFactory v0, prevDeps := deps,
          memoVal := .placeholder 0, phCtr := 1, factoryRef := f,
          timeoutRef := none, timers := [], nextHandle := 1,
          effectDeps := none }
      .ok (runEffect s now delay true, 1)
    else
      match evalF f with
      | .error e => .error e
      | .ok v1 =>
        let s : Hook T :=
          { committed := .fromFactory v0, prevDeps := deps,
            memoVal := .fromFactory v1, phCtr := 0, factoryRef := f,
            timeoutRef := none, timers := [], nextHandle := 1,
            effectDeps := none }
        .ok (runEffect s now delay false, 2)

/-- The effect phase of a re-render: the effect re-runs only when its
dependency array `[memoizedValue, delay, lazy]` differs (slot-wise
`Object.is`) from the previous run's. -/
def effectPhase (s : Hook T) (now delay : Int) (lazy : Bool)
    (calls : Nat) : StepOut T :=
  if s.effectDeps = some (s.memoVal, delay, lazy) then
    { state := s, thrown := none, calls := calls }
  else
    { state := runEffect s now delay lazy, thrown := none, calls := calls }

/-- A re-render of the hook (the host's `notify`): update
`factoryRef.current` unconditionally; `useMemo` recomputes only when the
dependency list changed (slot-wise equality) — lazily a fresh
placeholder, eagerly a factory call (whose exception aborts the render,
leaving all hook slots but the already-mutated ref unchanged); then the
effect phase. -/
def render (s : Hook T) (now : Int) (f : Nat) (deps : List Nat)
    (delay : Int) (lazy : Bool) : StepOut T :=
  let s0 := { s with factoryRef := f }
  if deps = s0.prevDeps then
    effectPhase s0 now delay lazy 0
  else if lazy then
    effectPhase
      { s0 with prevDeps := deps, memoVal := .placeholder s0.phCtr,
                phCtr := s0.phCtr + 1 } now delay lazy 0
  else
    match evalF f with
    | .error e => { state := s0, thrown := some e, calls := 1 }
    | .ok v =>
      effectPhase { s0 with prevDeps := deps, memoVal := .fromFactory v }
        now delay lazy 1

/-- The host invokes the callback of a due timer `tm`.  The timer leaves
the live pool; the callback commits `factoryRef.current()` when it
captured `lazy = true` (an exception leaves `committed` untouched), and
the captured `memoizedValue` otherwise. -/
def fire (s : Hook T) (tm : PTimer T) : StepOut T :=
  let s0 := { s with timers := clearTimeout s.timers tm.handle }
  if tm.capturedLazy then
    match evalF s0.factoryRef with
    | .error e => { state := s0, thrown := some e, calls := 1 }
    | .ok v =>
      { state := { s0 with committed := .fromFactory v },
        thrown := none, calls := 1 }
  else
    { state := { s0 with committed := tm.capturedMemo },
      thrown := none, calls := 0 }

/-- One host `notify` (re-render) event at an absolute time. -/
structure NotifyEv where
  time : Int
  factory : Nat
  deps : List Nat
  delay : Int
  lazy : Bool
deriving DecidableEq, Repr

/-- The timer the event loop runs next before `bound`: smallest fire
time not above `bound`, ties resolved by arming order (list order). -/
def earliestDue {T : Type} (timers : List (PTimer T)) (bound : Int) :
    Option (PTimer T) :=
  timers.foldl
    (fun acc tm =>
      if tm.fireAt ≤ bound then
        match acc with
        | none => some tm
        | some best =>
          if tm.fireAt < best.fireAt then some tm else some best
      else acc)
    none

/-- Event-loop driver: fires every timer due before the next `notify`
event (or before `horizon` once events are exhausted), interleaved with
the `notify` renders, accumulating the commit log (each
`setDebouncedValue` call, with its time and value) and the total factory
call count.  A factory exception stops the run.  `fuel` bounds the
iteration count; `run` supplies enough for the whole event list. -/
def runAux (fuel : Nat) (s : Hook T) (evs : List NotifyEv)
    (horizon : Int) (commits : List (Int × MVal T)) (calls : Nat) :
    Except Nat (Hook T × List (Int × MVal T) × Nat) :=
  match fuel with
  | 0 => .ok (s, commits, calls)
  | fuel + 1 =>
    let bound := match evs with
      | [] => horizon
      | ev :: _ => ev.time
    match earliestDue s.timers bound with
    | some tm =>
      let out := fire evalF s tm
      match out.thrown with
      | some e => .error e
      | none =>
        runAux fuel out.state evs horizon
          (commits ++ [(tm.fireAt, out.state.committed)])
          (calls + out.calls)
    | none =>
      match evs with
      | [] => .ok (s, commits, calls)
      | ev :: rest =>
        let out := render evalF s ev.time ev.factory ev.deps ev.delay
          ev.lazy
        match out.thrown with
        | some e => .error e
        | none => runAux fuel out.state rest horizon commits
          (calls + out.calls)

/-- Run a whole timeline from a mounted state: enough fuel for every
event plus every fire a single-pending-timer controller can produce. -/
def run (s : Hook T) (evs : List NotifyEv) (horizon : Int) :
    Except Nat (Hook T × List (Int × MVal T) × Nat) :=
  runAux evalF (2 * evs.length + 2) s evs horizon [] 0

/-- States reachable through the hook's lifecycle: a successful mount,
followed by any re-renders and fires of live timers. -/
inductive Reachable : Hook T → Prop where
  | mounted (now : Int) (f : Nat) (deps : List Nat) (delay : Int)
      (lazy : Bool) (s : Hook T) (calls : Nat)
      (h : mount evalF now f deps delay lazy = .ok (s, calls)) :
      Reachable s
  | rendered (s : Hook T) (now : Int) (f : Nat) (deps : List Nat)
      (delay : Int) (lazy : Bool) (h : Reachable s) :
      Reachable (render evalF s now f deps delay lazy).state
  | fired (s : Hook T) (tm : PTimer T) (h : Reachable s)
      (hmem : tm ∈ s.timers) : Reachable (fire evalF s tm).state

/-- Reachability with the policy flag held fixed at `b` for the whole
lifetime (mount and every re-render use the same `lazy`). -/
inductive ReachableP (b : Bool) : Hook T → Prop where
  | mounted (now : Int) (f : Nat) (deps : List Nat) (delay : Int)
      (s : Hook T) (calls : Nat)
      (h : mount evalF now f deps delay b = .ok (s, calls)) :
      ReachableP b s
  | rendered (s : Hook T) (now : Int) (f : Nat) (deps : List Nat)
      (delay : Int) (h : ReachableP b s) :
      ReachableP b (render evalF s now f deps delay b).state
  | fired (s : Hook T) (tm : PTimer T) (h : ReachableP b s)
      (hmem : tm ∈ s.timers) : ReachableP b (fire evalF s tm).state

/-- Factory semantics used by concrete runs: factory `f` returns `f`. -/
def evalId : Nat → Except Nat Nat := fun f => .ok f

/-- A factory whose output never changes (`Object.is`-identical each call). -/
def evalConst : Nat → Except Nat Nat := fun _ => .ok 7

/-- A factory that always throws. -/
def evalThrow : Nat → Except Nat Nat := fun _ => .error 13

/-- The scheduling invariant: at most one live timer, and the stored
`timeoutRef` handle points at any timer that is live. -/
def TimerInv (s : Hook T) : Prop :=
  s.timers.length ≤ 1 ∧ ∀ tm ∈ s.timers, s.timeoutRef = some tm.handle

/-- `m` is the output of some caller factory under `evalF`. -/
def FactoryOut (evalF : Nat → Except Nat T) (m : MVal T) : Prop :=
  ∃ f t, evalF f = .ok t ∧ m = .fromFactory t

/-- Invariant of a fixed-policy (`lazy = b`) lifetime: the committed value
and, eagerly, the memoized value and every armed timer's captured value
are caller-factory outputs, and every armed timer captured policy `b`. -/
def PolicyInv (evalF : Nat → Except Nat T) (b : Bool) (s : Hook T) : Prop :=
  FactoryOut evalF s.committed ∧
  (b = false → FactoryOut evalF s.memoVal) ∧
  ∀ tm ∈ s.timers,
    tm.capturedLazy = b ∧ (b = false → FactoryOut evalF tm.capturedMemo)

end DebouncedMemo

deriving instance DecidableEq for Except

namespace DebouncedMemo

variable {T : Type} [DecidableEq T] (evalF : Nat → Except Nat T)

theorem clearStored_nil (o : Option Nat) :
    clearStored ([] : List (PTimer T)) o = [] := by
  cases o <;> simp [clearStored, clearTimeout]

theorem clearStored_self (tm : PTimer T) :
    clearStored [tm] (some tm.handle) = [] := by
  simp [clearStored, clearTimeout]

theorem clearStored_aligned (timers : List (PTimer T)) (o : Option Nat)
    (h : ∀ tm ∈ timers, o = some tm.handle) :
    clearStored timers o = [] := by
  cases o with
  | none =>
    cases timers with
    | nil => rfl
    | cons tm rest => cases h tm (by simp)
  | some hd =>
    simp only [clearStored, clearTimeout, List.filter_eq_nil_iff]
    intro tm hm
    have := h tm hm
    simp at this
    simp [this]

theorem clearTimeout_aligned (timers : List (PTimer T)) (hd : Nat)
    (tm0 : PTimer T) (hmem : tm0 ∈ timers)
    (h : ∀ tm ∈ timers, (some hd : Option Nat) = some tm.handle) :
    clearTimeout timers tm0.handle = [] := by
  have h0 : tm0.handle = hd := by have := h tm0 hmem; simp at this; omega
  simp only [clearTimeout, List.filter_eq_nil_iff]
  intro tm hm
  have := h tm hm
  simp at this
  simp [h0, this]

theorem mem_clearTimeout (timers : List (PTimer T)) (hd : Nat)
    (tm : PTimer T) (h : tm ∈ clearTimeout timers hd) : tm ∈ timers :=
  List.mem_of_mem_filter h

/-- Re-render with unchanged snapshot and unchanged effect inputs: only
the factory ref moves; no timer is touched, no factory is called. -/
theorem render_noop (s : Hook T) (now : Int) (f : Nat) (deps : List Nat)
    (delay : Int) (lazy : Bool) (hd : deps = s.prevDeps)
    (he : s.effectDeps = some (s.memoVal, delay, lazy)) :
    render evalF s now f deps delay lazy =
      ⟨{ s with factoryRef := f }, none, 0⟩ := by
  simp [render, effectPhase, hd, he]

/-- Eager re-render with changed snapshot and changed memoized value. -/
theorem render_eager_rearm (s : Hook T) (now : Int) (f : Nat)
    (deps : List Nat) (delay : Int) (v : T) (hd : deps ≠ s.prevDeps)
    (hv : evalF f = .ok v)
    (he : s.effectDeps ≠ some (.fromFactory v, delay, false)) :
    render evalF s now f deps delay false =
      ⟨{ committed := s.committed, prevDeps := deps,
         memoVal := .fromFactory v, phCtr := s.phCtr, factoryRef := f,
         timeoutRef := some s.nextHandle,
         timers := clearStored s.timers s.timeoutRef ++
           [⟨s.nextHandle, now + delay, false, .fromFactory v⟩],
         nextHandle := s.nextHandle + 1,
         effectDeps := some (.fromFactory v, delay, false) }, none, 1⟩ := by
  simp [render, effectPhase, runEffect, hd, hv, he]

/-- Lazy re-render with changed snapshot: fresh placeholder, rearm, no
factory call. -/
theorem render_lazy_rearm (s : Hook T) (now : Int) (f : Nat)
    (deps : List Nat) (delay : Int) (hd : deps ≠ s.prevDeps)
    (he : s.effectDeps ≠ some (.placeholder s.phCtr, delay, true)) :
    render evalF s now f deps delay true =
      ⟨{ committed := s.committed, prevDeps := deps,
         memoVal := .placeholder s.phCtr, phCtr := s.phCtr + 1,
         factoryRef := f, timeoutRef := some s.nextHandle,
         timers := clearStored s.timers s.timeoutRef ++
           [⟨s.nextHandle, now + delay, true, .placeholder s.phCtr⟩],
         nextHandle := s.nextHandle + 1,
         effectDeps := some (.placeholder s.phCtr, delay, true) }, none, 0⟩ := by
  simp [render, effectPhase, runEffect, hd, he]

/-- `render_eager_rearm` from a state whose stored timer clears away. -/
theorem render_eager_rearm0 (s : Hook T) (now : Int) (f : Nat)
    (deps : List Nat) (delay : Int) (v : T) (hd : deps ≠ s.prevDeps)
    (hv : evalF f = .ok v)
    (he : s.effectDeps ≠ some (.fromFactory v, delay, false))
    (hclr : clearStored s.timers s.timeoutRef = []) :
    render evalF s now f deps delay false =
      ⟨{ committed := s.committed, prevDeps := deps,
         memoVal := .fromFactory v, phCtr := s.phCtr, factoryRef := f,
         timeoutRef := some s.nextHandle,
         timers := [⟨s.nextHandle, now + delay, false, .fromFactory v⟩],
         nextHandle := s.nextHandle + 1,
         effectDeps := some (.fromFactory v, delay, false) }, none, 1⟩ := by
  rw [render_eager_rearm evalF s now f deps delay v hd hv he, hclr]
  simp

/-- `render_lazy_rearm` from a state whose stored timer clears away. -/
theorem render_lazy_rearm0 (s : Hook T) (now : Int) (f : Nat)
    (deps : List Nat) (delay : Int) (hd : deps ≠ s.prevDeps)
    (he : s.effectDeps ≠ some (.placeholder s.phCtr, delay, true))
    (hclr : clearStored s.timers s.timeoutRef = []) :
    render evalF s now f deps delay true =
      ⟨{ committed := s.committed, prevDeps := deps,
         memoVal := .placeholder s.phCtr, phCtr := s.phCtr + 1,
         factoryRef := f, timeoutRef := some s.nextHandle,
         timers := [⟨s.nextHandle, now + delay, true, .placeholder s.phCtr⟩],
         nextHandle := s.nextHandle + 1,
         effectDeps := some (.placeholder s.phCtr, delay, true) }, none, 0⟩ := by
  rw [render_lazy_rearm evalF s now f deps delay hd he, hclr]
  simp

/-- Firing an eagerly-armed timer commits the captured memo value. -/
theorem fire_eager (s : Hook T) (tm : PTimer T)
    (hl : tm.capturedLazy = false) :
    fire evalF s tm =
      ⟨{ s with timers := clearTimeout s.timers tm.handle,
                committed := tm.capturedMemo }, none, 0⟩ := by
  simp [fire, hl]

/-- Firing a lazily-armed timer calls the current factory and commits
its output. -/
theorem fire_lazy_ok (s : Hook T) (tm : PTimer T) (v : T)
    (hl : tm.capturedLazy = true) (hv : evalF s.factoryRef = .ok v) :
    fire evalF s tm =
      ⟨{ s with timers := clearTimeout s.timers tm.handle,
                committed := .fromFactory v }, none, 1⟩ := by
  simp [fire, hl, hv]

theorem earliestDue_nil (bound : Int) :
    earliestDue ([] : List (PTimer T)) bound = none := rfl

theorem earliestDue_single (tm : PTimer T) (bound : Int) :
    earliestDue [tm] bound =
      if tm.fireAt ≤ bound then some tm else none := by
  simp [earliestDue]

theorem runAux_render_step (fuel : Nat) (s : Hook T) (ev : NotifyEv)
    (rest : List NotifyEv) (horizon : Int) (commits : List (Int × MVal T))
    (calls : Nat) (s1 : Hook T) (c : Nat)
    (hdue : earliestDue s.timers ev.time = none)
    (hren : render evalF s ev.time ev.factory ev.deps ev.delay ev.lazy =
      ⟨s1, none, c⟩) :
    runAux evalF (fuel + 1) s (ev :: rest) horizon commits calls =
      runAux evalF fuel s1 rest horizon commits (calls + c) := by
  simp only [runAux, hdue, hren]

theorem runAux_fire_step (fuel : Nat) (s : Hook T) (horizon : Int)
    (commits : List (Int × MVal T)) (calls : Nat) (tm : PTimer T)
    (s1 : Hook T) (c : Nat)
    (hdue : earliestDue s.timers horizon = some tm)
    (hf : fire evalF s tm = ⟨s1, none, c⟩) :
    runAux evalF (fuel + 1) s [] horizon commits calls =
      runAux evalF fuel s1 [] horizon
        (commits ++ [(tm.fireAt, s1.committed)]) (calls + c) := by
  simp only [runAux, hdue, hf]

theorem runAux_nil_done (fuel : Nat) (s : Hook T) (horizon : Int)
    (commits : List (Int × MVal T)) (calls : Nat)
    (hdue : earliestDue s.timers horizon = none) :
    runAux evalF (fuel + 1) s [] horizon commits calls =
      .ok (s, commits, calls) := by
  simp only [runAux, hdue]

end DebouncedMemo

namespace DebouncedMemo

variable {T : Type} [DecidableEq T] (evalF : Nat → Except Nat T)

/-- C5: calling `notify` with an unchanged snapshot (slot-wise equal
dependency list), unchanged delay and unchanged policy is a no-op: the
factory reference is refreshed, but no factory call happens, no timer is
cancelled or armed, and the committed value is untouched. -/
theorem notify_unchanged_is_noop (s : Hook T) (now : Int) (f : Nat)
    (deps : List Nat) (delay : Int) (lazy : Bool) (hd : deps = s.prevDeps)
    (he : s.effectDeps = some (s.memoVal, delay, lazy)) :
    render evalF s now f deps delay lazy =
      ⟨{ s with factoryRef := f }, none, 0⟩ :=
  render_noop evalF s now f deps delay lazy hd he

theorem notify_unchanged_is_noop_witness :
    render evalId
      ⟨.fromFactory 1, [4], .fromFactory 1, 0, 9, some 1,
        [⟨1, 300, false, .fromFactory 1⟩], 2,
        some (.fromFactory 1, 300, false)⟩ 50 9 [4] 300 false =
      ⟨⟨.fromFactory 1, [4], .fromFactory 1, 0, 9, some 1,
        [⟨1, 300, false, .fromFactory 1⟩], 2,
        some (.fromFactory 1, 300, false)⟩, none, 0⟩ :=
  notify_unchanged_is_noop evalId _ 50 9 [4] 300 false rfl rfl

/-- C6 counterexample: at construction with the Eager policy the code
invokes the factory twice — once in the `useState` initializer and once
in the first `useMemo` computation — not exactly once as claimed. -/
theorem eager_mount_calls_factory_twice :
    (mount evalId 0 5 [0] 300 false).map (fun p => p.2) = .ok 2 := by
  decide

/-- C6 (amended): immediately after construction the committed value is
the factory's output, computed synchronously with no delay, under both
policies; the Lazy mount performs exactly one factory invocation while
the Eager mount performs two (state initializer plus eager memo), both
yielding the same `currentValue()`. -/
theorem mount_committed_value (now : Int) (f : Nat) (deps : List Nat)
    (delay : Int) (v : T) (hv : evalF f = .ok v) :
    (mount evalF now f deps delay true).map (fun p => (p.1.committed, p.2)) =
      .ok (.fromFactory v, 1) ∧
    (mount evalF now f deps delay false).map (fun p => (p.1.committed, p.2)) =
      .ok (.fromFactory v, 2) := by
  constructor <;> simp [mount, runEffect, clearStored, Except.map, hv]

theorem mount_committed_value_witness :
    (mount evalId 3 5 [0] 300 true).map (fun p => (p.1.committed, p.2)) =
      .ok (.fromFactory 5, 1) ∧
    (mount evalId 3 5 [0] 300 false).map (fun p => (p.1.committed, p.2)) =
      .ok (.fromFactory 5, 2) :=
  mount_committed_value evalId 3 5 [0] 300 5 rfl

/-- C7: a `notify` with the snapshot unchanged but the delay changed
cancels the stored timer and arms a fresh one for the new delay (exactly
the scheduling path of a snapshot change) while performing no factory
call, Eager policy included, and leaving the committed value alone. -/
theorem delay_change_reschedules_without_recompute (s : Hook T)
    (now : Int) (f : Nat) (deps : List Nat) (delay d0 : Int) (lazy : Bool)
    (hd : deps = s.prevDeps) (he : s.effectDeps = some (s.memoVal, d0, lazy))
    (hne : delay ≠ d0) :
    render evalF s now f deps delay lazy =
      ⟨{ s with factoryRef := f, timeoutRef := some s.nextHandle,
                timers := clearStored s.timers s.timeoutRef ++
                  [⟨s.nextHandle, now + delay, lazy, s.memoVal⟩],
                nextHandle := s.nextHandle + 1,
                effectDeps := some (s.memoVal, delay, lazy) }, none, 0⟩ := by
  have hcond : s.effectDeps ≠ some (s.memoVal, delay, lazy) := by
    rw [he]
    simp
    intro h
    omega
  simp [render, effectPhase, runEffect, hd, hcond]

theorem delay_change_reschedules_without_recompute_witness :
    render evalId
      ⟨.fromFactory 1, [4], .fromFactory 1, 0, 9, some 1,
        [⟨1, 300, false, .fromFactory 1⟩], 2,
        some (.fromFactory 1, 300, false)⟩ 50 9 [4] 100 false =
      ⟨⟨.fromFactory 1, [4], .fromFactory 1, 0, 9, some 2,
        [⟨2, 150, false, .fromFactory 1⟩], 3,
        some (.fromFactory 1, 100, false)⟩, none, 0⟩ := by
  have h := delay_change_reschedules_without_recompute evalId
    ⟨.fromFactory 1, [4], .fromFactory 1, 0, 9, some 1,
      [⟨1, 300, false, .fromFactory 1⟩], 2,
      some (.fromFactory 1, 300, false)⟩ 50 9 [4] 100 300 false rfl rfl
    (by decide)
  rw [h]
  decide

/-- C8: a factory that throws propagates its exception synchronously to
the site that invoked it — construction (`mount` fails under either
policy), eager precomputation inside `notify` (the render reports the
exception and only the factory ref has moved), and the lazy timer-fire
callback — and in every case the committed value is left at its previous
value and the factory is invoked exactly once (no retry). -/
theorem factory_exception_propagates (s : Hook T) (now : Int) (f : Nat)
    (deps : List Nat) (delay : Int) (e : Nat) (tm : PTimer T)
    (hf : evalF f = .error e) (hd : deps ≠ s.prevDeps)
    (hfr : s.factoryRef = f) (htm : tm.capturedLazy = true) :
    mount evalF now f deps delay false = .error e ∧
    mount evalF now f deps delay true = .error e ∧
    render evalF s now f deps delay false =
      ⟨{ s with factoryRef := f }, some e, 1⟩ ∧
    fire evalF s tm =
      ⟨{ s with timers := clearTimeout s.timers tm.handle }, some e, 1⟩ := by
  refine ⟨?_, ?_, ?_, ?_⟩
  · simp [mount, hf]
  · simp [mount, hf]
  · simp [render, hd, hf]
  · simp [fire, htm, hfr, hf]

theorem factory_exception_propagates_witness :
    mount evalThrow 0 4 [5] 300 false = .error 13 ∧
    mount evalThrow 0 4 [5] 300 true = .error 13 ∧
    render evalThrow
      ⟨.fromFactory 1, [0], .fromFactory 1, 0, 4, some 1,
        [⟨1, 300, true, .placeholder 0⟩], 2,
        some (.fromFactory 1, 300, true)⟩ 0 4 [5] 300 false =
      ⟨⟨.fromFactory 1, [0], .fromFactory 1, 0, 4, some 1,
        [⟨1, 300, true, .placeholder 0⟩], 2,
        some (.fromFactory 1, 300, true)⟩, some 13, 1⟩ ∧
    fire evalThrow
      ⟨.fromFactory 1, [0], .fromFactory 1, 0, 4, some 1,
        [⟨1, 300, true, .placeholder 0⟩], 2,
        some (.fromFactory 1, 300, true)⟩ ⟨1, 300, true, .placeholder 0⟩ =
      ⟨⟨.fromFactory 1, [0], .fromFactory 1, 0, 4, some 1, [], 2,
        some (.fromFactory 1, 300, true)⟩, some 13, 1⟩ := by
  have h := factory_exception_propagates evalThrow
    ⟨.fromFactory 1, [0], .fromFactory 1, 0, 4, some 1,
      [⟨1, 300, true, .placeholder 0⟩], 2,
      some (.fromFactory 1, 300, true)⟩ 0 4 [5] 300 13
    ⟨1, 300, true, .placeholder 0⟩ rfl (by decide) rfl rfl
  refine ⟨h.1, h.2.1, ?_, ?_⟩
  · rw [h.2.2.1]
  · rw [h.2.2.2]
    decide

/-- C9 counterexample: a negative delay is accepted silently — mounting
with delay −5 succeeds, arms a timer with fire time −5, and raises no
misuse error; no fail-fast validation exists anywhere in the code. -/
theorem negative_delay_accepted_without_error :
    (mount evalId 0 7 [0] (-5) false).map
      (fun p => (p.1.committed, p.1.timers.map (fun tm => tm.fireAt), p.2)) =
      .ok (.fromFactory 7, [-5], 2) := by
  decide

/-- C9 (amended): the controller performs no configuration validation:
for every negative delay, option parsing passes the value through
unchanged and construction (likewise every later `notify`) succeeds,
scheduling with the negative delay as-is, instead of failing fast. -/
theorem no_delay_validation (now delay : Int) (f : Nat) (deps : List Nat)
    (v : T) (hv : evalF f = .ok v) (hneg : delay < 0) :
    parseDelay (.num delay) = delay ∧ parseLazy (.num delay) = false ∧
    (mount evalF now f deps delay false).map
      (fun p => (p.1.committed, p.1.timers.map (fun tm => tm.fireAt))) =
      .ok (.fromFactory v, [now + delay]) := by
  refine ⟨rfl, rfl, ?_⟩
  simp [mount, runEffect, clearStored, Except.map, hv]

theorem no_delay_validation_witness :
    parseDelay (.num (-5)) = -5 ∧ parseLazy (.num (-5)) = false ∧
    (mount evalId 0 7 [0] (-5) false).map
      (fun p => (p.1.committed, p.1.timers.map (fun tm => tm.fireAt))) =
      .ok (.fromFactory 7, [0 + -5]) :=
  no_delay_validation evalId 0 (-5) 7 [0] 7 rfl (by decide)

end DebouncedMemo

namespace DebouncedMemo

variable {T : Type} [DecidableEq T] (evalF : Nat → Except Nat T)

/-- C1 counterexample: three snapshot changes at t = 0, 100, 200 with
delay 300 (all gaps < delay) from a quiescent state, under Eager, with a
factory whose output is `Object.is`-identical each time (the constant
7): the effect keys on the memoized value, not the snapshot, so no timer
is ever armed and **zero** commits occur — not exactly one commit at
t + 2ε + delay = 500 as claimed (the three eager computations do run). -/
theorem eager_burst_identity_collision_no_commit :
    (run evalConst
      ⟨.fromFactory 7, [0], .fromFactory 7, 0, 5, some 1, [], 2,
        some (.fromFactory 7, 300, false)⟩
      [⟨0, 5, [1], 300, false⟩, ⟨100, 5, [2], 300, false⟩,
        ⟨200, 5, [3], 300, false⟩] 1000).map (fun r => r.2) =
      .ok ([], 3) := by
  decide

/-- C1 (amended): from a quiescent controller, for snapshot changes at
t, t+ε, t+2ε with 0 < ε < delay under Eager, **provided** the eager
factory outputs of the three changes differ pairwise in sequence and
from the previously memoized value (automatic for fresh object results,
but not for colliding primitives, which suppress rearming as the
counterexample shows), the run performs the three eager computations and
exactly one commit, at time t + 2ε + delay, of the last change's
output. -/
theorem eager_burst_commits_last_output_once (s : Hook T)
    (t ε delay : Int) (f1 f2 f3 : Nat) (d1 d2 d3 : List Nat) (a b c : T)
    (hq : s.timers = [])
    (he : s.effectDeps = some (s.memoVal, delay, false))
    (hma : s.memoVal ≠ .fromFactory a)
    (hd1 : d1 ≠ s.prevDeps) (hd2 : d2 ≠ d1) (hd3 : d3 ≠ d2)
    (hε : 0 < ε) (hεd : ε < delay)
    (ha : evalF f1 = .ok a) (hb : evalF f2 = .ok b) (hc : evalF f3 = .ok c)
    (hab : a ≠ b) (hbc : b ≠ c) :
    (run evalF s [⟨t, f1, d1, delay, false⟩, ⟨t + ε, f2, d2, delay, false⟩,
        ⟨t + 2*ε, f3, d3, delay, false⟩] (t + 2*ε + delay)).map
      (fun r => (r.2.1, r.2.2)) =
    .ok ([(t + 2*ε + delay, .fromFactory c)], 3) := by
  have c1 : ¬(t + delay ≤ t + ε) := by omega
  have c2 : ¬(t + ε + delay ≤ t + 2*ε) := by omega
  have hm1 : s.effectDeps ≠ some (.fromFactory a, delay, false) := by
    simp [he, hma]
  have e1 := render_eager_rearm0 evalF s t f1 d1 delay a hd1 ha hm1
    (by rw [hq]; exact clearStored_nil _)
  rw [run, show (2 * ([⟨t, f1, d1, delay, false⟩,
      ⟨t + ε, f2, d2, delay, false⟩,
      (⟨t + 2*ε, f3, d3, delay, false⟩ : NotifyEv)] : List NotifyEv).length
      + 2) = 7 + 1 from rfl]
  rw [runAux_render_step evalF 7 s _ _ _ _ _ _ _ (by rw [hq]; rfl) e1]
  rw [show (7:Nat) = 6 + 1 from rfl]
  rw [runAux_render_step evalF 6 _ _ _ _ _ _ _ _
    (by rw [earliestDue_single]; exact if_neg c1)
    (render_eager_rearm0 evalF _ _ _ _ _ b hd2 hb (by simp [hab])
      (clearStored_self _))]
  rw [show (6:Nat) = 5 + 1 from rfl]
  rw [runAux_render_step evalF 5 _ _ _ _ _ _ _ _
    (by rw [earliestDue_single]; exact if_neg c2)
    (render_eager_rearm0 evalF _ _ _ _ _ c hd3 hc (by simp [hbc])
      (clearStored_self _))]
  rw [show (5:Nat) = 4 + 1 from rfl]
  rw [runAux_fire_step evalF 4 _ _ _ _ _ _ _
    (by rw [earliestDue_single]; exact if_pos (le_refl _))
    (fire_eager evalF _ _ rfl)]
  rw [show (4:Nat) = 3 + 1 from rfl]
  rw [runAux_nil_done evalF 3 _ _ _ _ (by simp [clearTimeout, earliestDue])]
  rfl

theorem eager_burst_commits_last_output_once_witness :
    (run evalId
      ⟨.fromFactory 0, [0], .fromFactory 0, 0, 0, some 1, [], 2,
        some (.fromFactory 0, 300, false)⟩
      [⟨0, 1, [1], 300, false⟩, ⟨0 + 100, 2, [2], 300, false⟩,
        ⟨0 + 2*100, 3, [3], 300, false⟩] (0 + 2*100 + 300)).map
      (fun r => (r.2.1, r.2.2)) =
    .ok ([(0 + 2*100 + 300, .fromFactory 3)], 3) :=
  eager_burst_commits_last_output_once evalId
    ⟨.fromFactory 0, [0], .fromFactory 0, 0, 0, some 1, [], 2,
      some (.fromFactory 0, 300, false)⟩
    0 100 300 1 2 3 [1] [2] [3] 1 2 3 rfl rfl (by decide) (by decide)
    (by decide) (by decide) (by decide) (by decide) rfl rfl rfl
    (by decide) (by decide)

/-- C2: under the Lazy policy a snapshot-change render performs zero
factory calls, and across a burst of three rapid snapshot changes inside
one debounce window (gaps ε < delay) the whole run performs exactly one
factory execution, at the single timer fire at t + 2ε + delay, whose
output is the committed value. -/
theorem lazy_factory_deferred_single_execution (s : Hook T)
    (t ε delay : Int) (f1 f2 f3 : Nat) (d1 d2 d3 : List Nat) (v : T)
    (hq : s.timers = [])
    (he : s.effectDeps = some (s.memoVal, delay, true))
    (hm : s.memoVal ≠ .placeholder s.phCtr)
    (hd1 : d1 ≠ s.prevDeps) (hd2 : d2 ≠ d1) (hd3 : d3 ≠ d2)
    (hε : 0 < ε) (hεd : ε < delay)
    (hv : evalF f3 = .ok v) :
    (render evalF s t f1 d1 delay true).calls = 0 ∧
    (run evalF s [⟨t, f1, d1, delay, true⟩, ⟨t + ε, f2, d2, delay, true⟩,
        ⟨t + 2*ε, f3, d3, delay, true⟩] (t + 2*ε + delay)).map
      (fun r => (r.2.1, r.2.2)) =
    .ok ([(t + 2*ε + delay, .fromFactory v)], 1) := by
  have c1 : ¬(t + delay ≤ t + ε) := by omega
  have c2 : ¬(t + ε + delay ≤ t + 2*ε) := by omega
  have hm1 : s.effectDeps ≠ some (.placeholder s.phCtr, delay, true) := by
    simp [he, hm]
  have e1 := render_lazy_rearm0 evalF s t f1 d1 delay hd1 hm1
    (by rw [hq]; exact clearStored_nil _)
  constructor
  · rw [e1]
  · rw [run, show (2 * ([⟨t, f1, d1, delay, true⟩,
        ⟨t + ε, f2, d2, delay, true⟩,
        (⟨t + 2*ε, f3, d3, delay, true⟩ : NotifyEv)] : List NotifyEv).length
        + 2) = 7 + 1 from rfl]
    rw [runAux_render_step evalF 7 s _ _ _ _ _ _ _ (by rw [hq]; rfl) e1]
    rw [show (7:Nat) = 6 + 1 from rfl]
    rw [runAux_render_step evalF 6 _ _ _ _ _ _ _ _
      (by rw [earliestDue_single]; exact if_neg c1)
      (render_lazy_rearm0 evalF _ _ _ _ _ hd2 (by simp) (clearStored_self _))]
    rw [show (6:Nat) = 5 + 1 from rfl]
    rw [runAux_render_step evalF 5 _ _ _ _ _ _ _ _
      (by rw [earliestDue_single]; exact if_neg c2)
      (render_lazy_rearm0 evalF _ _ _ _ _ hd3 (by simp) (clearStored_self _))]
    rw [show (5:Nat) = 4 + 1 from rfl]
    rw [runAux_fire_step evalF 4 _ _ _ _ _ _ _
      (by rw [earliestDue_single]; exact if_pos (le_refl _))
      (fire_lazy_ok evalF _ _ v rfl hv)]
    rw [show (4:Nat) = 3 + 1 from rfl]
    rw [runAux_nil_done evalF 3 _ _ _ _
      (by simp [clearTimeout, earliestDue])]
    rfl

theorem lazy_factory_deferred_single_execution_witness :
    (render evalId
      ⟨.fromFactory 9, [0], .fromFactory 9, 0, 9, some 1, [], 2,
        some (.fromFactory 9, 300, true)⟩ 0 1 [1] 300 true).calls = 0 ∧
    (run evalId
      ⟨.fromFactory 9, [0], .fromFactory 9, 0, 9, some 1, [], 2,
        some (.fromFactory 9, 300, true)⟩
      [⟨0, 1, [1], 300, true⟩, ⟨0 + 100, 2, [2], 300, true⟩,
        ⟨0 + 2*100, 3, [3], 300, true⟩] (0 + 2*100 + 300)).map
      (fun r => (r.2.1, r.2.2)) =
    .ok ([(0 + 2*100 + 300, .fromFactory 3)], 1) :=
  lazy_factory_deferred_single_execution evalId
    ⟨.fromFactory 9, [0], .fromFactory 9, 0, 9, some 1, [], 2,
      some (.fromFactory 9, 300, true)⟩
    0 100 300 1 2 3 [1] [2] [3] 3 rfl rfl (by decide) (by decide)
    (by decide) (by decide) (by decide) (by decide) rfl

/-- C3: under the Lazy policy, when the factory is swapped (same
snapshot, same delay) between a timer being armed at a snapshot change
and that timer firing, the pending timer survives the swap and its fire
invokes the **newest** factory reference: the single commit carries the
new factory's output, and the final factory ref is the new factory. -/
theorem lazy_commit_uses_newest_factory (s : Hook T) (t t2 delay : Int)
    (f1 f2 : Nat) (d1 : List Nat) (v2 : T)
    (hq : s.timers = [])
    (he : s.effectDeps = some (s.memoVal, delay, true))
    (hm : s.memoVal ≠ .placeholder s.phCtr)
    (hd1 : d1 ≠ s.prevDeps)
    (ht : t ≤ t2) (ht2 : t2 < t + delay)
    (hv2 : evalF f2 = .ok v2) :
    (run evalF s [⟨t, f1, d1, delay, true⟩, ⟨t2, f2, d1, delay, true⟩]
        (t + delay)).map (fun r => (r.2.1, r.1.factoryRef)) =
    .ok ([(t + delay, .fromFactory v2)], f2) := by
  have c1 : ¬(t + delay ≤ t2) := by omega
  have hm1 : s.effectDeps ≠ some (.placeholder s.phCtr, delay, true) := by
    simp [he, hm]
  have e1 := render_lazy_rearm0 evalF s t f1 d1 delay hd1 hm1
    (by rw [hq]; exact clearStored_nil _)
  rw [run, show (2 * ([⟨t, f1, d1, delay, true⟩,
      (⟨t2, f2, d1, delay, true⟩ : NotifyEv)] : List NotifyEv).length
      + 2) = 5 + 1 from rfl]
  rw [runAux_render_step evalF 5 s _ _ _ _ _ _ _ (by rw [hq]; rfl) e1]
  rw [show (5:Nat) = 4 + 1 from rfl]
  rw [runAux_render_step evalF 4 _ _ _ _ _ _ _ _
    (by rw [earliestDue_single]; exact if_neg c1)
    (render_noop evalF _ t2 f2 d1 delay true rfl rfl)]
  rw [show (4:Nat) = 3 + 1 from rfl]
  rw [runAux_fire_step evalF 3 _ _ _ _ _ _ _
    (by rw [earliestDue_single]; exact if_pos (le_refl _))
    (fire_lazy_ok evalF _ _ v2 rfl hv2)]
  rw [show (3:Nat) = 2 + 1 from rfl]
  rw [runAux_nil_done evalF 2 _ _ _ _ (by simp [clearTimeout, earliestDue])]
  rfl

theorem lazy_commit_uses_newest_factory_witness :
    (run evalId
      ⟨.fromFactory 9, [0], .fromFactory 9, 0, 9, some 1, [], 2,
        some (.fromFactory 9, 300, true)⟩
      [⟨0, 1, [1], 300, true⟩, ⟨100, 2, [1], 300, true⟩] (0 + 300)).map
      (fun r => (r.2.1, r.1.factoryRef)) =
    .ok ([(0 + 300, .fromFactory 2)], 2) :=
  lazy_commit_uses_newest_factory evalId
    ⟨.fromFactory 9, [0], .fromFactory 9, 0, 9, some 1, [], 2,
      some (.fromFactory 9, 300, true)⟩
    0 100 300 1 2 [1] 2 rfl rfl (by decide) (by decide) (by decide)
    (by decide) rfl

end DebouncedMemo

namespace DebouncedMemo

variable {T : Type} [DecidableEq T] (evalF : Nat → Except Nat T)

theorem timerInv_mount (now : Int) (f : Nat) (deps : List Nat)
    (delay : Int) (lazy : Bool) (s : Hook T) (calls : Nat)
    (h : mount evalF now f deps delay lazy = .ok (s, calls)) :
    TimerInv s := by
  cases hef : evalF f with
  | error e => simp [mount, hef] at h
  | ok v0 =>
    by_cases hl : lazy
    · simp [mount, hef, hl] at h
      obtain ⟨hs, hc⟩ := h
      subst hs
      simp [TimerInv, runEffect, clearStored]
    · simp [mount, hef, hl] at h
      obtain ⟨hs, hc⟩ := h
      subst hs
      simp [TimerInv, runEffect, clearStored]

theorem timerInv_effectPhase (s : Hook T) (now delay : Int) (lazy : Bool)
    (calls : Nat) (hinv : TimerInv s) :
    TimerInv (effectPhase s now delay lazy calls).state := by
  unfold effectPhase
  split
  · exact hinv
  · have hclr := clearStored_aligned s.timers s.timeoutRef hinv.2
    simp [TimerInv, runEffect, hclr]

theorem timerInv_render (s : Hook T) (now : Int) (f : Nat)
    (deps : List Nat) (delay : Int) (lazy : Bool) (hinv : TimerInv s) :
    TimerInv (render evalF s now f deps delay lazy).state := by
  simp only [render]
  repeat' split
  all_goals
    first
      | exact hinv
      | exact timerInv_effectPhase _ now delay lazy _ hinv

theorem timerInv_fire (s : Hook T) (tm : PTimer T) (hinv : TimerInv s)
    (hmem : tm ∈ s.timers) : TimerInv (fire evalF s tm).state := by
  have hclr : clearTimeout s.timers tm.handle = [] := by
    refine clearTimeout_aligned s.timers tm.handle tm hmem ?_
    intro tm2 hm2
    exact (hinv.2 tm hmem).symm.trans (hinv.2 tm2 hm2)
  simp only [fire]
  repeat' split
  all_goals simp [TimerInv, hclr]

theorem timerInv_reachable (s : Hook T) (h : Reachable evalF s) :
    TimerInv s := by
  induction h with
  | mounted now f deps delay lazy s calls hm =>
    exact timerInv_mount evalF now f deps delay lazy s calls hm
  | rendered s now f deps delay lazy h ih =>
    exact timerInv_render evalF s now f deps delay lazy ih
  | fired s tm h hmem ih => exact timerInv_fire evalF s tm ih hmem

/-- C4: in every reachable controller state — any mount followed by any
interleaving of re-renders (snapshot, factory, delay or policy changes)
and timer fires — at most one timer is live in the host's pool: every
rearming path clears the stored timer handle before calling `setTimeout`
again, so two armed timers can never coexist, let alone race to
commit. -/
theorem at_most_one_live_timer (s : Hook T) (h : Reachable evalF s) :
    s.timers.length ≤ 1 :=
  (timerInv_reachable evalF s h).1

theorem at_most_one_live_timer_witness :
    (⟨.fromFactory 5, [0], .fromFactory 5, 0, 5, some 1,
      [⟨1, 300, false, .fromFactory 5⟩], 2,
      some (.fromFactory 5, 300, false)⟩ : Hook Nat).timers.length ≤ 1 :=
  at_most_one_live_timer evalId _
    (Reachable.mounted 0 5 [0] 300 false _ 2 (by decide))

theorem mem_clearStored (timers : List (PTimer T)) (o : Option Nat)
    (tm : PTimer T) (h : tm ∈ clearStored timers o) : tm ∈ timers := by
  cases o with
  | none => exact h
  | some hd => exact List.mem_of_mem_filter h

theorem policyInv_mount (b : Bool) (now : Int) (f : Nat)
    (deps : List Nat) (delay : Int) (s : Hook T) (calls : Nat)
    (h : mount evalF now f deps delay b = .ok (s, calls)) :
    PolicyInv evalF b s := by
  cases hef : evalF f with
  | error e => simp [mount, hef] at h
  | ok v0 =>
    cases b with
    | true =>
      simp [mount, hef] at h
      obtain ⟨hs, hc⟩ := h
      subst hs
      refine ⟨⟨f, v0, hef, rfl⟩, by simp, ?_⟩
      intro tm hmem
      simp [runEffect, clearStored] at hmem
      subst hmem
      simp
    | false =>
      simp [mount, hef] at h
      obtain ⟨hs, hc⟩ := h
      subst hs
      refine ⟨⟨f, v0, hef, rfl⟩, fun _ => ⟨f, v0, hef, rfl⟩, ?_⟩
      intro tm hmem
      simp [runEffect, clearStored] at hmem
      subst hmem
      exact ⟨rfl, fun _ => ⟨f, v0, hef, rfl⟩⟩

theorem policyInv_effectPhase (b : Bool) (s : Hook T) (now delay : Int)
    (calls : Nat) (hc : FactoryOut evalF s.committed)
    (hm : b = false → FactoryOut evalF s.memoVal)
    (ht : ∀ tm ∈ s.timers,
      tm.capturedLazy = b ∧
        (b = false → FactoryOut evalF tm.capturedMemo)) :
    PolicyInv evalF b (effectPhase s now delay b calls).state := by
  unfold effectPhase
  split
  · exact ⟨hc, hm, ht⟩
  · refine ⟨hc, hm, ?_⟩
    intro tm hmem
    simp only [runEffect, List.mem_append] at hmem
    cases hmem with
    | inl hold => exact ht tm (mem_clearStored s.timers s.timeoutRef tm hold)
    | inr hnew =>
      simp at hnew
      subst hnew
      exact ⟨rfl, fun hb => hm hb⟩

theorem policyInv_render (b : Bool) (s : Hook T) (now : Int) (f : Nat)
    (deps : List Nat) (delay : Int) (hinv : PolicyInv evalF b s) :
    PolicyInv evalF b (render evalF s now f deps delay b).state := by
  obtain ⟨hc, hm, ht⟩ := hinv
  cases b with
  | true =>
    simp only [render]
    repeat' split
    all_goals
      first
        | exact ⟨hc, fun h => nomatch h, ht⟩
        | exact policyInv_effectPhase evalF true _ now delay _ hc
            (fun h => nomatch h) ht
        | simp_all
  | false =>
    simp only [render]
    repeat' split
    all_goals
      first
        | exact ⟨hc, hm, ht⟩
        | exact policyInv_effectPhase evalF false _ now delay _ hc hm ht
        | exact policyInv_effectPhase evalF false _ now delay _ hc
            (fun _ => ⟨f, _, by assumption, rfl⟩) ht
        | simp_all

theorem policyInv_fire (b : Bool) (s : Hook T) (tm : PTimer T)
    (hinv : PolicyInv evalF b s) (hmem : tm ∈ s.timers) :
    PolicyInv evalF b (fire evalF s tm).state := by
  obtain ⟨hc, hm, ht⟩ := hinv
  have hcl := (ht tm hmem).1
  have hmem2 : ∀ tm2 ∈ clearTimeout s.timers tm.handle,
      tm2.capturedLazy = b ∧
        (b = false → FactoryOut evalF tm2.capturedMemo) :=
    fun tm2 h2 => ht tm2 (mem_clearTimeout s.timers tm.handle tm2 h2)
  simp only [fire]
  cases b with
  | true =>
    rw [hcl, if_pos rfl]
    split
    · exact ⟨hc, hm, hmem2⟩
    · rename_i v heq
      exact ⟨⟨_, v, heq, rfl⟩, hm, hmem2⟩
  | false =>
    rw [hcl]
    simp only [Bool.false_eq_true, if_false]
    exact ⟨(ht tm hmem).2 rfl, hm, hmem2⟩

theorem policyInv_reachable (b : Bool) (s : Hook T)
    (h : ReachableP evalF b s) : PolicyInv evalF b s := by
  induction h with
  | mounted now f deps delay s calls hm =>
    exact policyInv_mount evalF b now f deps delay s calls hm
  | rendered s now f deps delay h ih =>
    exact policyInv_render evalF b s now f deps delay ih
  | fired s tm h hmem ih => exact policyInv_fire evalF b s tm ih hmem

/-- C10: over every fixed-policy lifetime (Eager or Lazy held constant),
the committed value — hence every value the hook ever returns, the
initial one included — is the output of some caller-supplied factory
(`FactoryOut`); in particular it is never the placeholder object the
lazy `useMemo` branch creates purely to retrigger the effect, so that
sentinel is never observable to the caller. -/
theorem committed_value_is_factory_output (b : Bool) (s : Hook T)
    (h : ReachableP evalF b s) : FactoryOut evalF s.committed :=
  (policyInv_reachable evalF b s h).1

theorem committed_value_is_factory_output_witness :
    FactoryOut evalId
      ((⟨.fromFactory 5, [0], .placeholder 0, 1, 5, some 1,
        [⟨1, 300, true, .placeholder 0⟩], 2,
        some (.placeholder 0, 300, true)⟩ : Hook Nat)).committed :=
  committed_value_is_factory_output evalId true _
    (ReachableP.mounted 0 5 [0] 300 _ 1 (by decide))

end DebouncedMemo
